import Mathlib

/-!
Shallow embedding of `singletonset-rs` (`src/lib.rs`): a heterogeneous
container `SingletonSet(IndexMap<Type, Box<dyn Any>>)` keyed by type
identity.  Types are modelled by `Ty` (the source's `Type` struct: a
`TypeId` plus a `&'static str` label); `TypeId` is abstracted as a `Nat`,
and the payload of a stored value is abstracted as a `Nat`.  A
`Box<dyn Any>` is an `AnyBox`: a payload together with the `TypeId` tag of
its dynamic type, and `downcast` succeeds exactly when the tag matches the
requested type, as in Rust.  The backing `IndexMap` is modelled as an
insertion-ordered association list, matching IndexMap's documented
behaviour: `insert` on a present key updates the value in place (keeping
the key and its position) and returns the old value; `entry(..).or_insert`
appends at the end when the key is absent; iteration is in insertion order.
Panics are modelled as `none` / `Except.error`.
-/

/-- Models the source's `Type` struct: `Type(TypeId, &'static str)`.
`id` stands for the `TypeId`, `label` for the `type_name` string. -/
structure Ty where
  id : Nat
  label : String
deriving DecidableEq, Repr

/-- Models `PartialEq for Type`: `self.0 == other.0`, i.e. equality on the
`TypeId` only, never on the label. -/
def Ty.beq (a b : Ty) : Bool :=
  a.id == b.id

/-- Models `Hash for Type`: `self.0.hash(state)` — only the `TypeId` is fed
to the hasher.  The hasher is abstracted as a state-combining function `h`;
the model applies it to the state and the id, and to nothing else. -/
def Ty.hashWith (h : Nat → Nat → Nat) (state : Nat) (a : Ty) : Nat :=
  h state a.id

/-- Models a `Box<dyn Any>`: the payload plus the `TypeId` tag of the
dynamic type it was boxed at. -/
structure AnyBox where
  tag : Nat
  val : Nat
deriving DecidableEq, Repr

/-- Models `Box<dyn Any>::downcast::<T>` / `downcast_ref` / `downcast_mut`:
succeeds, yielding the payload, iff the box's dynamic type tag equals the
requested type's id. -/
def AnyBox.downcast (b : AnyBox) (t : Ty) : Option Nat :=
  if b.tag == t.id then some b.val else none

/-- Models `SingletonSet(IndexMap<Type, Box<dyn Any>>)` as an
insertion-ordered association list of entries. -/
structure SingletonSet where
  entries : List (Ty × AnyBox)
deriving DecidableEq, Repr

namespace SingletonSet

/-- Models `SingletonSet::new()`: the empty map. -/
def new : SingletonSet :=
  ⟨[]⟩

/-- Models `SingletonSet::len()`: `self.0.len()`. -/
def len (s : SingletonSet) : Nat :=
  s.entries.length

/-- Models `SingletonSet::is_empty()`: `self.0.is_empty()`. -/
def is_empty (s : SingletonSet) : Bool :=
  s.entries.isEmpty

/-- Models `SingletonSet::clear()`: `self.0.clear()`. -/
def clear (_s : SingletonSet) : SingletonSet :=
  ⟨[]⟩

/-- Whether an entry's key is equivalent to `t` under the `Type` equality
(id-only), as the backing map compares keys. -/
def keyMatch (t : Ty) (e : Ty × AnyBox) : Bool :=
  Ty.beq e.1 t

/-- Models `IndexMap::get(&k)`: the value of the first (and, in a
well-formed map, only) entry whose key is equivalent to `t` under the
`Type` equality (id-only). -/
def lookup (s : SingletonSet) (t : Ty) : Option AnyBox :=
  (s.entries.find? (keyMatch t)).map (fun e => e.2)

/-- Models `SingletonSet::contains::<T>()`: `self.0.contains_key(&Type::of::<T>())`. -/
def contains (s : SingletonSet) (t : Ty) : Bool :=
  (s.entries.find? (keyMatch t)).isSome

/-- Models `SingletonSet::contains_type(&t)`: same lookup with a supplied
`Type` value. -/
def contains_type (s : SingletonSet) (t : Ty) : Bool :=
  contains s t

/-- Helper for `IndexMap::insert` on a present key: the first entry whose
key matches `t` keeps its key and position and gets the new value; the
rest is unchanged. -/
def replaceVal : List (Ty × AnyBox) → Ty → AnyBox → List (Ty × AnyBox)
  | [], _, _ => []
  | e :: rest, t, v =>
    if keyMatch t e then (e.1, v) :: rest else e :: replaceVal rest t v

/-- Models `IndexMap::insert(k, v)`: if an equivalent key is present its
value is updated in place and the old value returned; otherwise the entry
is appended at the end and `none` returned. -/
def mapInsert (s : SingletonSet) (t : Ty) (v : AnyBox) :
    Option AnyBox × SingletonSet :=
  match lookup s t with
  | some old => (some old, ⟨replaceVal s.entries t v⟩)
  | none => (none, ⟨s.entries ++ [(t, v)]⟩)

/-- Models `SingletonSet::insert::<T>(value)`:
`self.0.insert(Type::of::<T>(), Box::new(value)).and_then(|b| b.downcast().ok().map(|b| *b))`.
The key is `Type::of::<T>()` and the box is tagged with `T`'s id. -/
def insert (s : SingletonSet) (t : Ty) (v : Nat) : Option Nat × SingletonSet :=
  let r := mapInsert s t ⟨t.id, v⟩
  (r.1.bind (fun b => b.downcast t), r.2)

/-- Models `SingletonSet::insert_default::<T>()`: `self.insert(T::default())`;
`d` stands for `T::default()`. -/
def insert_default (s : SingletonSet) (t : Ty) (d : Nat) :
    Option Nat × SingletonSet :=
  insert s t d

/-- Models `SingletonSet::insert_with::<T>(f)`: `self.insert(f())`. -/
def insert_with (s : SingletonSet) (t : Ty) (f : Unit → Nat) :
    Option Nat × SingletonSet :=
  insert s t (f ())

/-- Models `SingletonSet::try_as_ref::<T>()`:
`self.0.get(&Type::of::<T>()).and_then(|b| b.downcast_ref::<T>())`. -/
def try_as_ref (s : SingletonSet) (t : Ty) : Option Nat :=
  (lookup s t).bind (fun b => b.downcast t)

/-- Models `SingletonSet::try_get::<T>()`: alias of `try_as_ref`. -/
def try_get (s : SingletonSet) (t : Ty) : Option Nat :=
  try_as_ref s t

/-- Models `SingletonSet::try_as_mut::<T>()`:
`self.0.get_mut(..).and_then(downcast_mut)`.  It takes `&mut self` but
performs no structural change, so the returned set is the input set. -/
def try_as_mut (s : SingletonSet) (t : Ty) : Option Nat × SingletonSet :=
  ((lookup s t).bind (fun b => b.downcast t), s)

/-- Models `SingletonSet::try_get_mut::<T>()`: alias of `try_as_mut`. -/
def try_get_mut (s : SingletonSet) (t : Ty) : Option Nat × SingletonSet :=
  try_as_mut s t

/-- The fixed message of the `expect` in `AsRef::as_ref for SingletonSet`. -/
def expectMsg : String :=
  ".try_as_ref() or .as_mut() should be used if the slot might be empty"

/-- Models `<SingletonSet as AsRef<T>>::as_ref()`:
`self.try_as_ref().expect("...")`.  A panic is modelled as `Except.error`
carrying the panic message. -/
def as_ref (s : SingletonSet) (t : Ty) : Except String Nat :=
  match try_as_ref s t with
  | some v => Except.ok v
  | none => Except.error expectMsg

/-- Models `SingletonSet::get::<T>()`: alias of `as_ref`. -/
def get (s : SingletonSet) (t : Ty) : Except String Nat :=
  as_ref s t

/-- Models `SingletonSet::with_ref::<T, R>(f)`: `f(self.as_ref())` — the
panic of `as_ref` propagates. -/
def with_ref {R : Type} (s : SingletonSet) (t : Ty) (f : Nat → R) :
    Except String R :=
  (as_ref s t).map f

/-- Models `SingletonSet::as_ref_or_insert::<T>(value)`:
`self.0.entry(Type::of::<T>()).or_insert(Box::new(value)).downcast_ref().unwrap()`.
The `unwrap`'s potential panic is the `Option` in the first component. -/
def as_ref_or_insert (s : SingletonSet) (t : Ty) (v : Nat) :
    Option Nat × SingletonSet :=
  match lookup s t with
  | some b => (b.downcast t, s)
  | none =>
    (AnyBox.downcast ⟨t.id, v⟩ t, ⟨s.entries ++ [(t, ⟨t.id, v⟩)]⟩)

/-- Models `SingletonSet::get_or_insert::<T>(value)`: alias of
`as_ref_or_insert`. -/
def get_or_insert (s : SingletonSet) (t : Ty) (v : Nat) :
    Option Nat × SingletonSet :=
  as_ref_or_insert s t v

/-- Models `SingletonSet::as_mut_or_insert::<T>(value)`: same entry
`or_insert` pattern with `downcast_mut`. -/
def as_mut_or_insert (s : SingletonSet) (t : Ty) (v : Nat) :
    Option Nat × SingletonSet :=
  match lookup s t with
  | some b => (b.downcast t, s)
  | none =>
    (AnyBox.downcast ⟨t.id, v⟩ t, ⟨s.entries ++ [(t, ⟨t.id, v⟩)]⟩)

/-- Models `SingletonSet::get_or_insert_mut::<T>(value)`: alias of
`as_mut_or_insert`. -/
def get_or_insert_mut (s : SingletonSet) (t : Ty) (v : Nat) :
    Option Nat × SingletonSet :=
  as_mut_or_insert s t v

/-- Result of the `or_insert_with` family: the reference's value, the
resulting set, and how many times the supplied factory closure was
invoked (`or_insert_with` calls it exactly when the entry was vacant). -/
structure OrInsertResult where
  value : Option Nat
  set : SingletonSet
  factoryCalls : Nat
deriving DecidableEq, Repr

/-- Models `SingletonSet::as_ref_or_insert_with::<T>(default)`:
`self.0.entry(..).or_insert_with(|| Box::new(default())).downcast_ref().unwrap()`;
the closure is invoked once iff the entry was vacant. -/
def as_ref_or_insert_with (s : SingletonSet) (t : Ty) (f : Unit → Nat) :
    OrInsertResult :=
  match lookup s t with
  | some b => ⟨b.downcast t, s, 0⟩
  | none =>
    let v := f ()
    ⟨AnyBox.downcast ⟨t.id, v⟩ t, ⟨s.entries ++ [(t, ⟨t.id, v⟩)]⟩, 1⟩

/-- Models `SingletonSet::get_or_insert_with::<T>(default)`: alias of
`as_ref_or_insert_with`. -/
def get_or_insert_with (s : SingletonSet) (t : Ty) (f : Unit → Nat) :
    OrInsertResult :=
  as_ref_or_insert_with s t f

/-- Models `SingletonSet::as_mut_or_insert_with::<T>(default)`: same
pattern with `downcast_mut`. -/
def as_mut_or_insert_with (s : SingletonSet) (t : Ty) (f : Unit → Nat) :
    OrInsertResult :=
  match lookup s t with
  | some b => ⟨b.downcast t, s, 0⟩
  | none =>
    let v := f ()
    ⟨AnyBox.downcast ⟨t.id, v⟩ t, ⟨s.entries ++ [(t, ⟨t.id, v⟩)]⟩, 1⟩

/-- Models `SingletonSet::get_or_insert_with_mut::<T>(default)`: alias of
`as_mut_or_insert_with`. -/
def get_or_insert_with_mut (s : SingletonSet) (t : Ty) (f : Unit → Nat) :
    OrInsertResult :=
  as_mut_or_insert_with s t f

/-- Models `<SingletonSet as AsMut<T>>::as_mut()`:
`self.as_mut_or_insert_with(|| T::default())`; `d` stands for
`T::default()`. -/
def as_mut (s : SingletonSet) (t : Ty) (d : Nat) : Option Nat × SingletonSet :=
  let r := as_mut_or_insert_with s t (fun _ => d)
  (r.value, r.set)

/-- Models `SingletonSet::get_mut::<T>()`: alias of `as_mut`. -/
def get_mut (s : SingletonSet) (t : Ty) (d : Nat) : Option Nat × SingletonSet :=
  as_mut s t d

/-- Models writing a value `v` of type `t` through a mutable reference
previously returned by one of the `_mut` accessors (for example
`*set.as_mut() = v`): the payload of `t`'s entry is replaced in place; the
entry's key, position and dynamic-type tag are untouched (assignment
through `&mut T` cannot change the dynamic type). -/
def writeSlot (s : SingletonSet) (t : Ty) (v : Nat) : SingletonSet :=
  ⟨(s.entries.map (fun e => if keyMatch t e then (e.1, ⟨e.2.tag, v⟩) else e) :
      List (Ty × AnyBox))⟩

/-- Models `SingletonSet::types()`: the iterator over the map's keys, in
the order the backing `IndexMap` stores them (insertion order). -/
def types (s : SingletonSet) : List Ty :=
  s.entries.map (fun e => e.1)

/-- Well-formedness of a reachable `SingletonSet`: every stored box is
tagged with the id of its key (every value was boxed at the key's type),
and keys are unique per id (the map invariant). -/
def WF (s : SingletonSet) : Prop :=
  (∀ e ∈ s.entries, e.2.tag = e.1.id) ∧
    (s.entries.map (fun e => e.1.id)).Nodup

instance (s : SingletonSet) : Decidable (WF s) := by
  unfold WF
  exact instDecidableAnd

end SingletonSet

namespace Ty

/-- Index of the first occurrence of `c` in `s`, if any.  Models
`str::find(c)` on the character level. -/
def findIdxC (s : List Char) (c : Char) : Option Nat :=
  match s with
  | [] => none
  | a :: rest =>
    if a == c then some 0 else (findIdxC rest c).map (fun i => i + 1)

/-- Index of the last occurrence of `c` in `s`, if any.  Models
`str::rfind(c)` on the character level. -/
def rfindIdxC (s : List Char) (c : Char) : Option Nat :=
  match s with
  | [] => none
  | a :: rest =>
    match rfindIdxC rest c with
    | some i => some (i + 1)
    | none => if a == c then some 0 else none

/-- Models `Type::as_name()` on the label's characters:
`to_index = s.find('<').unwrap_or(s.len())`;
`from_index = s[..to_index].rfind(':').map_or(0, |i| i + 1)`;
result `s[from_index..to_index]`. -/
def as_name (t : Ty) : List Char :=
  let s := t.label.data
  let to_index := (findIdxC s '<').getD s.length
  let from_index := ((rfindIdxC (s.take to_index) ':').map (fun i => i + 1)).getD 0
  (s.take to_index).drop from_index

/-- Models `Type::to_name()`: the same computation as `as_name`, returning
an owned string. -/
def to_name (t : Ty) : List Char :=
  let s := t.label.data
  let to_index := (findIdxC s '<').getD s.length
  let from_index := ((rfindIdxC (s.take to_index) ':').map (fun i => i + 1)).getD 0
  (s.take to_index).drop from_index

end Ty

/-- Whether `pat` is an initial segment of `s`, character by character. -/
def charsStartWith : List Char → List Char → Bool
  | [], _ => true
  | _ :: _, [] => false
  | a :: pa, b :: pb => a == b && charsStartWith pa pb

/-- Whether `pat` occurs as a contiguous substring of `s`.  Used to state
whether a diagnostic message mentions a type name. -/
def containsSub (pat : List Char) : List Char → Bool
  | [] => pat.isEmpty
  | b :: rest => charsStartWith pat (b :: rest) || containsSub pat rest

/-- Spec-side characterisation of the claim's cut point: `j` is the index
of the first occurrence of `c` in `s`, or `s.length` when `c` does not
occur in `s`. -/
def isFirstOccOrEnd (s : List Char) (c : Char) (j : Nat) : Prop :=
  (j = s.length ∧ ∀ k : Nat, s[k]? ≠ some c) ∨
    (s[j]? = some c ∧ ∀ k : Nat, k < j → s[k]? ≠ some c)

/-- Spec-side characterisation of the claim's start point inside the
prefix `p` (the label cut at the generic delimiter): `i` is just after the
last `':'` in `p`, or `0` when `p` contains no `':'`. -/
def isAfterLastColon (p : List Char) (i : Nat) : Prop :=
  (i = 0 ∧ ∀ k : Nat, p[k]? ≠ some ':') ∨
    (∃ m : Nat, i = m + 1 ∧ p[m]? = some ':' ∧
      ∀ k : Nat, m < k → p[k]? ≠ some ':')

namespace SingletonSet

theorem keyMatch_true_iff {t : Ty} {e : Ty × AnyBox} :
    keyMatch t e = true ↔ e.1.id = t.id := by
  simp [keyMatch, Ty.beq]

theorem keyMatch_pair {t k : Ty} {b : AnyBox} :
    keyMatch t (k, b) = Ty.beq k t := rfl

theorem lookup_eq_none_iff {s : SingletonSet} {t : Ty} :
    lookup s t = none ↔ s.entries.find? (keyMatch t) = none := by
  unfold lookup
  cases s.entries.find? (keyMatch t) <;> simp

theorem contains_eq_false_iff {s : SingletonSet} {t : Ty} :
    contains s t = false ↔ lookup s t = none := by
  unfold contains lookup
  cases s.entries.find? (keyMatch t) <;> simp

theorem lookup_find?_some {s : SingletonSet} {t : Ty} {b : AnyBox}
    (h : lookup s t = some b) :
    ∃ e, s.entries.find? (keyMatch t) = some e ∧ e.2 = b := by
  unfold lookup at h
  cases hf : s.entries.find? (keyMatch t) with
  | none => rw [hf] at h; simp at h
  | some e =>
    rw [hf] at h
    simp at h
    exact ⟨e, rfl, h⟩

theorem lookup_append_self {s : SingletonSet} {t : Ty} (v : AnyBox)
    (h : lookup s t = none) :
    lookup (⟨s.entries ++ [(t, v)]⟩ : SingletonSet) t = some v := by
  have hf := lookup_eq_none_iff.mp h
  unfold lookup
  rw [List.find?_append, hf]
  simp [keyMatch, Ty.beq]

theorem lookup_append_other {s : SingletonSet} {t t' : Ty} (v : AnyBox)
    (hne : t'.id ≠ t.id) :
    lookup (⟨s.entries ++ [(t, v)]⟩ : SingletonSet) t' = lookup s t' := by
  unfold lookup
  rw [List.find?_append]
  have hk : ¬ keyMatch t' (t, v) = true := by
    simp [keyMatch, Ty.beq]
    exact fun hc => hne hc.symm
  rw [List.find?_cons_of_neg _ hk]
  cases s.entries.find? (keyMatch t') <;> simp

theorem find?_replaceVal_self (l : List (Ty × AnyBox)) (t : Ty) (v : AnyBox) :
    (replaceVal l t v).find? (keyMatch t) =
      (l.find? (keyMatch t)).map (fun e => (e.1, v)) := by
  induction l with
  | nil => rfl
  | cons e rest ih =>
    by_cases h : keyMatch t e = true
    · rw [replaceVal, if_pos h]
      have h' : keyMatch t (e.1, v) = true := h
      rw [List.find?_cons_of_pos _ h', List.find?_cons_of_pos _ h]
      rfl
    · rw [replaceVal, if_neg h]
      rw [List.find?_cons_of_neg _ h,
        List.find?_cons_of_neg _ (by exact h : ¬ keyMatch t e = true)]
      exact ih

theorem find?_replaceVal_other {t t' : Ty} (hne : t'.id ≠ t.id)
    (l : List (Ty × AnyBox)) (v : AnyBox) :
    (replaceVal l t v).find? (keyMatch t') = l.find? (keyMatch t') := by
  induction l with
  | nil => rfl
  | cons e rest ih =>
    by_cases h : keyMatch t e = true
    · rw [replaceVal, if_pos h]
      have h1 : e.1.id = t.id := keyMatch_true_iff.mp h
      have h2 : keyMatch t' (e.1, v) = false := by
        simp [keyMatch, Ty.beq, h1]
        exact fun hc => hne hc.symm
      have h3 : keyMatch t' e = false := by
        simp [keyMatch, Ty.beq, h1]
        exact fun hc => hne hc.symm
      rw [List.find?_cons_of_neg _ (by simp [h2]),
        List.find?_cons_of_neg _ (by simp [h3])]
    · rw [replaceVal, if_neg h]
      by_cases h' : keyMatch t' e = true
      · rw [List.find?_cons_of_pos _ h', List.find?_cons_of_pos _ h']
      · rw [List.find?_cons_of_neg _ h', List.find?_cons_of_neg _ h']
        exact ih

theorem keys_replaceVal (l : List (Ty × AnyBox)) (t : Ty) (v : AnyBox) :
    (replaceVal l t v).map (fun e => e.1) = l.map (fun e => e.1) := by
  induction l with
  | nil => rfl
  | cons e rest ih =>
    by_cases h : keyMatch t e = true
    · rw [replaceVal, if_pos h]; rfl
    · rw [replaceVal, if_neg h]
      simpa using ih

theorem ids_replaceVal (l : List (Ty × AnyBox)) (t : Ty) (v : AnyBox) :
    (replaceVal l t v).map (fun e => e.1.id) = l.map (fun e => e.1.id) := by
  induction l with
  | nil => rfl
  | cons e rest ih =>
    by_cases h : keyMatch t e = true
    · rw [replaceVal, if_pos h]; rfl
    · rw [replaceVal, if_neg h]
      simpa using ih

theorem mem_replaceVal {l : List (Ty × AnyBox)} {t : Ty} {v : AnyBox}
    {e' : Ty × AnyBox} (h : e' ∈ replaceVal l t v) :
    e' ∈ l ∨ (e'.2 = v ∧ e'.1.id = t.id) := by
  induction l with
  | nil => exact absurd h (by simp [replaceVal])
  | cons e rest ih =>
    by_cases hk : keyMatch t e = true
    · rw [replaceVal, if_pos hk] at h
      rcases List.mem_cons.mp h with h1 | h1
      · right
        rw [h1]
        exact ⟨rfl, keyMatch_true_iff.mp hk⟩
      · exact Or.inl (List.mem_cons_of_mem _ h1)
    · rw [replaceVal, if_neg hk] at h
      rcases List.mem_cons.mp h with h1 | h1
      · exact Or.inl (h1 ▸ List.mem_cons_self _ _)
      · rcases ih h1 with h2 | h2
        · exact Or.inl (List.mem_cons_of_mem _ h2)
        · exact Or.inr h2

theorem WF_new : WF new := by
  constructor <;> simp [new]

theorem WF_lookup_tag {s : SingletonSet} {t : Ty} {b : AnyBox}
    (hwf : WF s) (hb : lookup s t = some b) : b.tag = t.id := by
  obtain ⟨e, hf, he2⟩ := lookup_find?_some hb
  have hmem : e ∈ s.entries := List.mem_of_find?_eq_some hf
  have hk : keyMatch t e = true := List.find?_some hf
  have htag : e.2.tag = e.1.id := hwf.1 e hmem
  rw [← he2, htag]
  exact keyMatch_true_iff.mp hk

theorem WF_append {s : SingletonSet} {t : Ty} (v : Nat)
    (hwf : WF s) (habs : lookup s t = none) :
    WF (⟨s.entries ++ [(t, ⟨t.id, v⟩)]⟩ : SingletonSet) := by
  have hf := lookup_eq_none_iff.mp habs
  have hnone := List.find?_eq_none.mp hf
  constructor
  · intro e he
    rcases List.mem_append.mp he with h1 | h1
    · exact hwf.1 e h1
    · simp at h1
      rw [h1]
  · show ((s.entries ++ [((t, ⟨t.id, v⟩) : Ty × AnyBox)]).map
      (fun e => e.1.id)).Nodup
    rw [List.map_append]
    rw [List.nodup_append]
    refine ⟨hwf.2, by simp, ?_⟩
    intro a ha hb
    have hat : a = t.id := by simpa using hb
    obtain ⟨e, he, hid⟩ := List.mem_map.mp ha
    have hk : keyMatch t e = true := by
      rw [keyMatch_true_iff, hid, hat]
    exact hnone e he hk

theorem WF_replace {s : SingletonSet} {t : Ty} (v : Nat) (hwf : WF s) :
    WF (⟨replaceVal s.entries t ⟨t.id, v⟩⟩ : SingletonSet) := by
  constructor
  · intro e he
    rcases mem_replaceVal he with h1 | ⟨h2, hid⟩
    · exact hwf.1 e h1
    · rw [h2, hid]
  · show ((replaceVal s.entries t ⟨t.id, v⟩).map (fun e => e.1.id)).Nodup
    rw [ids_replaceVal]
    exact hwf.2

theorem lookup_writeSlot_self (s : SingletonSet) (t : Ty) (v : Nat) :
    lookup (writeSlot s t v) t =
      (lookup s t).map (fun b => ⟨b.tag, v⟩) := by
  unfold lookup writeSlot
  rw [List.find?_map]
  have hcomp :
      (keyMatch t ∘ fun e =>
        if keyMatch t e then ((e.1, ⟨e.2.tag, v⟩) : Ty × AnyBox) else e) =
        keyMatch t := by
    funext e
    show keyMatch t
      (if keyMatch t e then ((e.1, ⟨e.2.tag, v⟩) : Ty × AnyBox) else e) =
        keyMatch t e
    by_cases h : keyMatch t e = true
    · rw [if_pos h]
      rfl
    · rw [if_neg h]
  rw [hcomp]
  cases hf : s.entries.find? (keyMatch t) with
  | none => simp
  | some e =>
    have hk : keyMatch t e = true := List.find?_some hf
    simp [hk]

theorem lookup_writeSlot_other {s : SingletonSet} {t t' : Ty} (v : Nat)
    (hne : t'.id ≠ t.id) :
    lookup (writeSlot s t v) t' = lookup s t' := by
  unfold lookup writeSlot
  rw [List.find?_map]
  have hcomp :
      (keyMatch t' ∘ fun e =>
        if keyMatch t e then ((e.1, ⟨e.2.tag, v⟩) : Ty × AnyBox) else e) =
        keyMatch t' := by
    funext e
    show keyMatch t'
      (if keyMatch t e then ((e.1, ⟨e.2.tag, v⟩) : Ty × AnyBox) else e) =
        keyMatch t' e
    by_cases h : keyMatch t e = true
    · rw [if_pos h]
      rfl
    · rw [if_neg h]
  rw [hcomp]
  cases hf : s.entries.find? (keyMatch t') with
  | none => simp
  | some e =>
    have hk : keyMatch t' e = true := List.find?_some hf
    have hkt : keyMatch t e = false := by
      have h1 : e.1.id = t'.id := keyMatch_true_iff.mp hk
      simp [keyMatch, Ty.beq, h1]
      exact hne
    simp [hkt]

theorem keys_writeSlot (s : SingletonSet) (t : Ty) (v : Nat) :
    (writeSlot s t v).entries.map (fun e => e.1) =
      s.entries.map (fun e => e.1) := by
  unfold writeSlot
  rw [List.map_map]
  congr 1
  funext e
  show (if keyMatch t e then ((e.1, ⟨e.2.tag, v⟩) : Ty × AnyBox) else e).1 = e.1
  by_cases h : keyMatch t e = true
  · rw [if_pos h]
  · rw [if_neg h]

theorem ids_writeSlot (s : SingletonSet) (t : Ty) (v : Nat) :
    (writeSlot s t v).entries.map (fun e => e.1.id) =
      s.entries.map (fun e => e.1.id) := by
  unfold writeSlot
  rw [List.map_map]
  congr 1
  funext e
  show (if keyMatch t e then
      ((e.1, ⟨e.2.tag, v⟩) : Ty × AnyBox) else e).1.id = e.1.id
  by_cases h : keyMatch t e = true
  · rw [if_pos h]
  · rw [if_neg h]

theorem WF_writeSlot {s : SingletonSet} (t : Ty) (v : Nat) (hwf : WF s) :
    WF (writeSlot s t v) := by
  constructor
  · intro e he
    unfold writeSlot at he
    obtain ⟨e0, he0, hfe⟩ := List.mem_map.mp he
    by_cases h : keyMatch t e0 = true
    · rw [if_pos h] at hfe
      rw [← hfe]
      exact hwf.1 e0 he0
    · rw [if_neg h] at hfe
      rw [← hfe]
      exact hwf.1 e0 he0
  · show ((writeSlot s t v).entries.map (fun e => e.1.id)).Nodup
    rw [ids_writeSlot]
    exact hwf.2

theorem insert_fst (s : SingletonSet) (t : Ty) (v : Nat) :
    (insert s t v).1 = (lookup s t).bind (fun b => b.downcast t) := by
  unfold insert mapInsert
  cases hl : lookup s t <;> simp

theorem insert_snd_absent {s : SingletonSet} {t : Ty} (v : Nat)
    (h : lookup s t = none) :
    (insert s t v).2 = (⟨s.entries ++ [(t, ⟨t.id, v⟩)]⟩ : SingletonSet) := by
  unfold insert mapInsert
  rw [h]

theorem insert_snd_present {s : SingletonSet} {t : Ty} {b : AnyBox} (v : Nat)
    (h : lookup s t = some b) :
    (insert s t v).2 = (⟨replaceVal s.entries t ⟨t.id, v⟩⟩ : SingletonSet) := by
  unfold insert mapInsert
  rw [h]

theorem lookup_insert_self (s : SingletonSet) (t : Ty) (v : Nat) :
    lookup (insert s t v).2 t = some ⟨t.id, v⟩ := by
  cases hl : lookup s t with
  | none =>
    rw [insert_snd_absent v hl]
    exact lookup_append_self _ hl
  | some b =>
    rw [insert_snd_present v hl]
    show ((replaceVal s.entries t ⟨t.id, v⟩).find? (keyMatch t)).map
      (fun e => e.2) = some ⟨t.id, v⟩
    rw [find?_replaceVal_self]
    obtain ⟨e, hf, _⟩ := lookup_find?_some hl
    rw [hf]
    rfl

theorem lookup_insert_other {s : SingletonSet} {t t' : Ty} (v : Nat)
    (hne : t'.id ≠ t.id) :
    lookup (insert s t v).2 t' = lookup s t' := by
  cases hl : lookup s t with
  | none =>
    rw [insert_snd_absent v hl]
    exact lookup_append_other _ hne
  | some b =>
    rw [insert_snd_present v hl]
    show ((replaceVal s.entries t ⟨t.id, v⟩).find? (keyMatch t')).map
      (fun e => e.2) = lookup s t'
    rw [find?_replaceVal_other hne]
    rfl

theorem WF_insert {s : SingletonSet} (t : Ty) (v : Nat) (hwf : WF s) :
    WF (insert s t v).2 := by
  cases hl : lookup s t with
  | none =>
    rw [insert_snd_absent v hl]
    exact WF_append v hwf hl
  | some b =>
    rw [insert_snd_present v hl]
    exact WF_replace v hwf

theorem as_ref_or_insert_present {s : SingletonSet} {t : Ty} {b : AnyBox}
    (v : Nat) (hwf : WF s) (hb : lookup s t = some b) :
    as_ref_or_insert s t v = (some b.val, s) := by
  have ht : b.tag = t.id := WF_lookup_tag hwf hb
  simp [as_ref_or_insert, hb, AnyBox.downcast, ht]

theorem as_ref_or_insert_absent {s : SingletonSet} {t : Ty} (v : Nat)
    (h : lookup s t = none) :
    as_ref_or_insert s t v =
      (some v, (⟨s.entries ++ [(t, ⟨t.id, v⟩)]⟩ : SingletonSet)) := by
  simp [as_ref_or_insert, h, AnyBox.downcast]

theorem as_mut_or_insert_present {s : SingletonSet} {t : Ty} {b : AnyBox}
    (v : Nat) (hwf : WF s) (hb : lookup s t = some b) :
    as_mut_or_insert s t v = (some b.val, s) := by
  have ht : b.tag = t.id := WF_lookup_tag hwf hb
  simp [as_mut_or_insert, hb, AnyBox.downcast, ht]

theorem as_mut_or_insert_absent {s : SingletonSet} {t : Ty} (v : Nat)
    (h : lookup s t = none) :
    as_mut_or_insert s t v =
      (some v, (⟨s.entries ++ [(t, ⟨t.id, v⟩)]⟩ : SingletonSet)) := by
  simp [as_mut_or_insert, h, AnyBox.downcast]

theorem as_ref_or_insert_with_present {s : SingletonSet} {t : Ty} {b : AnyBox}
    (f : Unit → Nat) (hwf : WF s) (hb : lookup s t = some b) :
    as_ref_or_insert_with s t f = ⟨some b.val, s, 0⟩ := by
  have ht : b.tag = t.id := WF_lookup_tag hwf hb
  simp [as_ref_or_insert_with, hb, AnyBox.downcast, ht]

theorem as_ref_or_insert_with_absent {s : SingletonSet} {t : Ty}
    (f : Unit → Nat) (h : lookup s t = none) :
    as_ref_or_insert_with s t f =
      ⟨some (f ()), (⟨s.entries ++ [(t, ⟨t.id, f ()⟩)]⟩ : SingletonSet), 1⟩ := by
  simp [as_ref_or_insert_with, h, AnyBox.downcast]

theorem as_mut_or_insert_with_present {s : SingletonSet} {t : Ty} {b : AnyBox}
    (f : Unit → Nat) (hwf : WF s) (hb : lookup s t = some b) :
    as_mut_or_insert_with s t f = ⟨some b.val, s, 0⟩ := by
  have ht : b.tag = t.id := WF_lookup_tag hwf hb
  simp [as_mut_or_insert_with, hb, AnyBox.downcast, ht]

theorem as_mut_or_insert_with_absent {s : SingletonSet} {t : Ty}
    (f : Unit → Nat) (h : lookup s t = none) :
    as_mut_or_insert_with s t f =
      ⟨some (f ()), (⟨s.entries ++ [(t, ⟨t.id, f ()⟩)]⟩ : SingletonSet), 1⟩ := by
  simp [as_mut_or_insert_with, h, AnyBox.downcast]

theorem contains_eq_true_iff {s : SingletonSet} {t : Ty} :
    contains s t = true ↔ ∃ b, lookup s t = some b := by
  unfold contains lookup
  cases s.entries.find? (keyMatch t) <;> simp

theorem WF_as_ref_or_insert {s : SingletonSet} (t : Ty) (v : Nat)
    (hwf : WF s) : WF (as_ref_or_insert s t v).2 := by
  cases hl : lookup s t with
  | some b =>
    simp only [as_ref_or_insert, hl]
    exact hwf
  | none =>
    rw [as_ref_or_insert_absent v hl]
    exact WF_append v hwf hl

theorem WF_as_mut_or_insert {s : SingletonSet} (t : Ty) (v : Nat)
    (hwf : WF s) : WF (as_mut_or_insert s t v).2 := by
  cases hl : lookup s t with
  | some b =>
    simp only [as_mut_or_insert, hl]
    exact hwf
  | none =>
    rw [as_mut_or_insert_absent v hl]
    exact WF_append v hwf hl

theorem WF_as_ref_or_insert_with {s : SingletonSet} (t : Ty) (f : Unit → Nat)
    (hwf : WF s) : WF (as_ref_or_insert_with s t f).set := by
  cases hl : lookup s t with
  | some b =>
    simp only [as_ref_or_insert_with, hl]
    exact hwf
  | none =>
    rw [as_ref_or_insert_with_absent f hl]
    exact WF_append (f ()) hwf hl

theorem WF_as_mut_or_insert_with {s : SingletonSet} (t : Ty) (f : Unit → Nat)
    (hwf : WF s) : WF (as_mut_or_insert_with s t f).set := by
  cases hl : lookup s t with
  | some b =>
    simp only [as_mut_or_insert_with, hl]
    exact hwf
  | none =>
    rw [as_mut_or_insert_with_absent f hl]
    exact WF_append (f ()) hwf hl

theorem WF_as_mut {s : SingletonSet} (t : Ty) (d : Nat) (hwf : WF s) :
    WF (as_mut s t d).2 :=
  WF_as_mut_or_insert_with t (fun _ => d) hwf

/-- C1: for every type `T` and value `v`, `insert::<T>(v)` followed by a
read of `T` (`try_as_ref` or the panicking `get`) yields exactly `v`; when
no value of `T` was present, `insert` returns `none`; and a second
`insert::<T>(v2)` after `insert::<T>(v1)` returns `some v1` (the displaced
value) while subsequent reads of `T` return `v2`. -/
theorem c1_insert_round_trip_overwrite (s : SingletonSet) (t : Ty)
    (v v1 v2 : Nat) :
    try_as_ref (insert s t v).2 t = some v ∧
    get (insert s t v).2 t = Except.ok v ∧
    (contains s t = false → (insert s t v).1 = none) ∧
    (insert (insert s t v1).2 t v2).1 = some v1 ∧
    try_as_ref (insert (insert s t v1).2 t v2).2 t = some v2 := by
  have hread : ∀ w : Nat, ∀ s' : SingletonSet,
      try_as_ref (insert s' t w).2 t = some w := by
    intro w s'
    unfold try_as_ref
    rw [lookup_insert_self]
    simp [AnyBox.downcast]
  refine ⟨hread v s, ?_, ?_, ?_, hread v2 (insert s t v1).2⟩
  · unfold get as_ref
    rw [hread v s]
  · intro hc
    rw [insert_fst, contains_eq_false_iff.mp hc]
    rfl
  · rw [insert_fst, lookup_insert_self]
    simp [AnyBox.downcast]

theorem c1_insert_round_trip_overwrite_witness :
    contains new ⟨0, "u8"⟩ = false ∧
    try_as_ref (insert new ⟨0, "u8"⟩ 7).2 ⟨0, "u8"⟩ = some 7 ∧
    (insert (insert new ⟨0, "u8"⟩ 1).2 ⟨0, "u8"⟩ 2).1 = some 1 :=
  ⟨by decide,
    (c1_insert_round_trip_overwrite new ⟨0, "u8"⟩ 7 1 2).1,
    (c1_insert_round_trip_overwrite new ⟨0, "u8"⟩ 7 1 2).2.2.2.1⟩

/-- C2: on a state whose slot for `T` is occupied, every operation of the
get-or-insert family (`as_ref_or_insert`, `as_mut_or_insert`,
`as_ref_or_insert_with`, `as_mut_or_insert_with` and their `get_or_insert*`
aliases) returns the value already stored, leaves the container unchanged,
and the `_with` forms never invoke the supplied factory; when the slot is
absent, the factory is invoked exactly once. -/
theorem c2_get_or_insert_keeps_existing (s : SingletonSet) (t : Ty)
    (b : AnyBox) (v : Nat) (f : Unit → Nat) (hwf : WF s)
    (hocc : lookup s t = some b) :
    as_ref_or_insert s t v = (some b.val, s) ∧
    as_mut_or_insert s t v = (some b.val, s) ∧
    get_or_insert s t v = (some b.val, s) ∧
    get_or_insert_mut s t v = (some b.val, s) ∧
    as_ref_or_insert_with s t f = ⟨some b.val, s, 0⟩ ∧
    as_mut_or_insert_with s t f = ⟨some b.val, s, 0⟩ ∧
    get_or_insert_with s t f = ⟨some b.val, s, 0⟩ ∧
    get_or_insert_with_mut s t f = ⟨some b.val, s, 0⟩ ∧
    (∀ s' : SingletonSet, lookup s' t = none →
      (as_ref_or_insert_with s' t f).factoryCalls = 1 ∧
      (as_mut_or_insert_with s' t f).factoryCalls = 1) := by
  have h1 := as_ref_or_insert_present v hwf hocc
  have h2 := as_mut_or_insert_present v hwf hocc
  have h3 := as_ref_or_insert_with_present f hwf hocc
  have h4 := as_mut_or_insert_with_present f hwf hocc
  refine ⟨h1, h2, h1, h2, h3, h4, h3, h4, ?_⟩
  intro s' habs
  rw [as_ref_or_insert_with_absent f habs, as_mut_or_insert_with_absent f habs]
  exact ⟨rfl, rfl⟩

theorem c2_get_or_insert_keeps_existing_witness :
    lookup (insert new ⟨0, "u8"⟩ 5).2 ⟨0, "u8"⟩ = some ⟨0, 5⟩ ∧
    as_ref_or_insert (insert new ⟨0, "u8"⟩ 5).2 ⟨0, "u8"⟩ 9 =
      (some 5, (insert new ⟨0, "u8"⟩ 5).2) ∧
    (as_ref_or_insert_with new ⟨0, "u8"⟩ (fun _ => 9)).factoryCalls = 1 :=
  ⟨by decide,
    (c2_get_or_insert_keeps_existing (insert new ⟨0, "u8"⟩ 5).2 ⟨0, "u8"⟩
      ⟨0, 5⟩ 9 (fun _ => 9) (by decide) (by decide)).1,
    ((c2_get_or_insert_keeps_existing (insert new ⟨0, "u8"⟩ 5).2 ⟨0, "u8"⟩
      ⟨0, 5⟩ 9 (fun _ => 9) (by decide) (by decide)).2.2.2.2.2.2.2.2
        new (by decide)).1⟩

/-- C3 (counterexample): the panic message of the infallible read accessor
is the fixed string `expectMsg`, identical for every missing type, and it
does not contain the missing type's name (neither `u8` nor `String`), so
the failure does not carry a message naming the missing type. -/
theorem c3_counterexample :
    as_ref new ⟨0, "u8"⟩ = Except.error expectMsg ∧
    as_ref new ⟨1, "alloc::string::String"⟩ = Except.error expectMsg ∧
    containsSub "u8".data expectMsg.data = false ∧
    containsSub "String".data expectMsg.data = false ∧
    containsSub "alloc::string::String".data expectMsg.data = false :=
  ⟨rfl, rfl, by decide, by decide, by decide⟩

/-- C3 (amended): when `T`'s slot is absent, the infallible read accessor
(`AsRef::as_ref` and its aliases `get` and `with_ref`) fails fatally
(panics) rather than returning a default or empty result, and the failure
carries a fixed descriptive message (recommending `try_as_ref`/`as_mut`)
that does not name the missing type; when `T`'s slot is occupied it
returns the stored value without modifying the container. -/
theorem c3_as_ref_fatal_on_absent (s : SingletonSet) (t : Ty) (hwf : WF s) :
    (lookup s t = none →
      as_ref s t = Except.error expectMsg ∧
      get s t = Except.error expectMsg ∧
      with_ref s t (fun n => n) = Except.error expectMsg) ∧
    (∀ b : AnyBox, lookup s t = some b →
      as_ref s t = Except.ok b.val ∧ get s t = Except.ok b.val) := by
  constructor
  · intro habs
    have h1 : try_as_ref s t = none := by
      unfold try_as_ref
      rw [habs]
      rfl
    refine ⟨?_, ?_, ?_⟩ <;> simp [as_ref, get, with_ref, h1, Except.map]
  · intro b hb
    have ht : b.tag = t.id := WF_lookup_tag hwf hb
    have h1 : try_as_ref s t = some b.val := by
      unfold try_as_ref
      rw [hb]
      simp [AnyBox.downcast, ht]
    refine ⟨?_, ?_⟩ <;> simp [as_ref, get, h1]

theorem c3_as_ref_fatal_on_absent_witness :
    WF new ∧ as_ref new ⟨0, "u8"⟩ = Except.error expectMsg :=
  ⟨by decide,
    ((c3_as_ref_fatal_on_absent new ⟨0, "u8"⟩ (by decide)).1 (by decide)).1⟩

/-- C4: for a type `T` with default `d`, calling the default-producing
mutable accessor (`AsMut::as_mut`, alias `get_mut`) on a state whose `T`
slot is absent inserts exactly one default value: it returns `d`,
increases `len` by exactly one, and every later call for `T` inserts
nothing and returns the slot's current value — including a value written
through the previously returned mutable reference. -/
theorem c4_as_mut_default_on_first_access (s : SingletonSet) (t : Ty)
    (d d2 d3 w : Nat) (habs : lookup s t = none) :
    (as_mut s t d).1 = some d ∧
    get_mut s t d = as_mut s t d ∧
    len (as_mut s t d).2 = len s + 1 ∧
    as_mut (as_mut s t d).2 t d2 = (some d, (as_mut s t d).2) ∧
    as_mut (writeSlot (as_mut s t d).2 t w) t d3 =
      (some w, writeSlot (as_mut s t d).2 t w) ∧
    len (writeSlot (as_mut s t d).2 t w) = len s + 1 := by
  have h1 := as_mut_or_insert_with_absent (fun _ => d) habs
  have hmut : as_mut s t d =
      (some d, (⟨s.entries ++ [(t, ⟨t.id, d⟩)]⟩ : SingletonSet)) := by
    unfold as_mut
    rw [h1]
  have hlApp : lookup (⟨s.entries ++ [(t, ⟨t.id, d⟩)]⟩ : SingletonSet) t =
      some ⟨t.id, d⟩ := lookup_append_self _ habs
  have hlW : lookup
      (writeSlot (⟨s.entries ++ [(t, ⟨t.id, d⟩)]⟩ : SingletonSet) t w) t =
        some ⟨t.id, w⟩ := by
    rw [lookup_writeSlot_self, hlApp]
    rfl
  refine ⟨by rw [hmut], rfl, ?_, ?_, ?_, ?_⟩
  · rw [hmut]
    simp [len]
  · rw [hmut]
    unfold as_mut as_mut_or_insert_with
    rw [hlApp]
    simp [AnyBox.downcast]
  · rw [hmut]
    unfold as_mut as_mut_or_insert_with
    rw [hlW]
    simp [AnyBox.downcast]
  · rw [hmut]
    unfold writeSlot len
    simp

theorem c4_as_mut_default_on_first_access_witness :
    lookup new ⟨0, "string"⟩ = none ∧
    (as_mut new ⟨0, "string"⟩ 0).1 = some 0 ∧
    len (as_mut new ⟨0, "string"⟩ 0).2 = len new + 1 :=
  ⟨by decide,
    (c4_as_mut_default_on_first_access new ⟨0, "string"⟩ 0 1 2 3
      (by decide)).1,
    (c4_as_mut_default_on_first_access new ⟨0, "string"⟩ 0 1 2 3
      (by decide)).2.2.1⟩

/-- C5: on a state in which type `T` was never written (its slot is
absent), the optional read accessors `try_as_ref`/`try_get` and
`try_as_mut`/`try_get_mut` all return `none`, leave the container
unchanged, and in particular `len` is unchanged and no slot is created. -/
theorem c5_try_accessors_absent (s : SingletonSet) (t : Ty)
    (h : contains s t = false) :
    try_as_ref s t = none ∧
    try_get s t = none ∧
    try_as_mut s t = (none, s) ∧
    try_get_mut s t = (none, s) ∧
    len (try_as_mut s t).2 = len s := by
  have hl := contains_eq_false_iff.mp h
  refine ⟨?_, ?_, ?_, ?_, ?_⟩ <;>
    simp [try_as_ref, try_get, try_as_mut, try_get_mut, hl]

theorem c5_try_accessors_absent_witness :
    contains new ⟨0, "u8"⟩ = false ∧
    try_as_ref new ⟨0, "u8"⟩ = none ∧
    try_as_mut new ⟨0, "u8"⟩ = (none, new) :=
  ⟨by decide,
    (c5_try_accessors_absent new ⟨0, "u8"⟩ (by decide)).1,
    (c5_try_accessors_absent new ⟨0, "u8"⟩ (by decide)).2.2.1⟩

/-- C6: every well-formed state holds at most one value per type identity,
`len` equals the number of distinct type ids currently stored, and every
operation of the API preserves well-formedness (keys unique per id, every
box tagged with its key's type). -/
theorem c6_uniqueness_invariant (s : SingletonSet) (t : Ty) (v : Nat)
    (f : Unit → Nat) (hwf : WF s) :
    (∀ u : Nat, (s.entries.filter (fun e => e.1.id == u)).length ≤ 1) ∧
    len s = ((s.entries.map (fun e => e.1.id)).dedup).length ∧
    WF new ∧
    WF (clear s) ∧
    WF (insert s t v).2 ∧
    WF (as_ref_or_insert s t v).2 ∧
    WF (as_mut_or_insert s t v).2 ∧
    WF (as_ref_or_insert_with s t f).set ∧
    WF (as_mut_or_insert_with s t f).set ∧
    WF (as_mut s t v).2 ∧
    WF (writeSlot s t v) := by
  refine ⟨?_, ?_, WF_new, WF_new, WF_insert t v hwf,
    WF_as_ref_or_insert t v hwf, WF_as_mut_or_insert t v hwf,
    WF_as_ref_or_insert_with t f hwf, WF_as_mut_or_insert_with t f hwf,
    WF_as_mut t v hwf, WF_writeSlot t v hwf⟩
  · intro u
    have hc := List.nodup_iff_count_le_one.mp hwf.2 u
    rw [List.count_eq_countP, List.countP_map] at hc
    rw [← List.countP_eq_length_filter]
    exact hc
  · rw [List.Nodup.dedup hwf.2, List.length_map]
    rfl

theorem c6_uniqueness_invariant_witness :
    WF new ∧
    len (insert new ⟨0, "u8"⟩ 5).2 =
      (((insert new ⟨0, "u8"⟩ 5).2.entries.map
        (fun e => e.1.id)).dedup).length :=
  ⟨by decide,
    (c6_uniqueness_invariant (insert new ⟨0, "u8"⟩ 5).2 ⟨1, "u16"⟩ 0
      (fun _ => 0) (by decide)).2.1⟩

/-- C9: any operation that inserts into or mutates type `t1`'s slot
(`insert`, the whole or-insert family, the default-producing `as_mut`, or
a write through a previously obtained mutable reference) leaves the
observable value of every other type `t2` unchanged. -/
theorem c9_isolation (s : SingletonSet) (t1 t2 : Ty) (v w : Nat)
    (f : Unit → Nat) (hne : t1.id ≠ t2.id) :
    try_as_ref (insert s t1 v).2 t2 = try_as_ref s t2 ∧
    try_as_ref (as_ref_or_insert s t1 v).2 t2 = try_as_ref s t2 ∧
    try_as_ref (as_mut_or_insert s t1 v).2 t2 = try_as_ref s t2 ∧
    try_as_ref (as_ref_or_insert_with s t1 f).set t2 = try_as_ref s t2 ∧
    try_as_ref (as_mut_or_insert_with s t1 f).set t2 = try_as_ref s t2 ∧
    try_as_ref (as_mut s t1 v).2 t2 = try_as_ref s t2 ∧
    try_as_ref (writeSlot s t1 w) t2 = try_as_ref s t2 := by
  have hne2 : t2.id ≠ t1.id := fun hc => hne hc.symm
  have hA : ∀ b : AnyBox,
      try_as_ref (⟨s.entries ++ [(t1, b)]⟩ : SingletonSet) t2 =
        try_as_ref s t2 := by
    intro b
    unfold try_as_ref
    rw [lookup_append_other b hne2]
  refine ⟨?_, ?_, ?_, ?_, ?_, ?_, ?_⟩
  · unfold try_as_ref
    rw [lookup_insert_other v hne2]
  · cases hl : lookup s t1 with
    | some b => simp only [as_ref_or_insert, hl]
    | none =>
      rw [as_ref_or_insert_absent v hl]
      exact hA _
  · cases hl : lookup s t1 with
    | some b => simp only [as_mut_or_insert, hl]
    | none =>
      rw [as_mut_or_insert_absent v hl]
      exact hA _
  · cases hl : lookup s t1 with
    | some b => simp only [as_ref_or_insert_with, hl]
    | none =>
      rw [as_ref_or_insert_with_absent f hl]
      exact hA _
  · cases hl : lookup s t1 with
    | some b => simp only [as_mut_or_insert_with, hl]
    | none =>
      rw [as_mut_or_insert_with_absent f hl]
      exact hA _
  · show try_as_ref (as_mut_or_insert_with s t1 (fun _ => v)).set t2 =
      try_as_ref s t2
    cases hl : lookup s t1 with
    | some b => simp only [as_mut_or_insert_with, hl]
    | none =>
      rw [as_mut_or_insert_with_absent _ hl]
      exact hA _
  · unfold try_as_ref
    rw [lookup_writeSlot_other w hne2]

theorem c9_isolation_witness :
    ((⟨0, "u8"⟩ : Ty).id ≠ (⟨1, "u16"⟩ : Ty).id) ∧
    try_as_ref (insert (insert new ⟨1, "u16"⟩ 9).2 ⟨0, "u8"⟩ 5).2 ⟨1, "u16"⟩ =
      try_as_ref (insert new ⟨1, "u16"⟩ 9).2 ⟨1, "u16"⟩ :=
  ⟨by decide,
    (c9_isolation (insert new ⟨1, "u16"⟩ 9).2 ⟨0, "u8"⟩ ⟨1, "u16"⟩ 5 0
      (fun _ => 0) (by decide)).1⟩

/-- C10: `types()` yields exactly one `Type` per stored slot — `len()`
items with pairwise distinct ids on a well-formed state — and yields them
in the order of each type's first insertion since the last `clear`: a
fresh insertion appends its type at the end, writing to an occupied slot
keeps the key sequence unchanged, and `clear` resets it to empty; the
backing map preserves insertion order even though the iterator is
documented as visiting types in random order. -/
theorem c10_types_insertion_order (s : SingletonSet) (t : Ty) (v : Nat)
    (f : Unit → Nat) (hwf : WF s) :
    (types s).length = len s ∧
    ((types s).map (fun k => k.id)).Nodup ∧
    types new = [] ∧
    types (clear s) = [] ∧
    (contains s t = false →
      types (insert s t v).2 = types s ++ [t] ∧
      types (as_mut_or_insert_with s t f).set = types s ++ [t]) ∧
    (contains s t = true →
      types (insert s t v).2 = types s ∧
      types (as_mut_or_insert_with s t f).set = types s) ∧
    types (writeSlot s t v) = types s := by
  refine ⟨?_, ?_, rfl, rfl, ?_, ?_, ?_⟩
  · simp [types, len]
  · show ((s.entries.map (fun e => e.1)).map (fun k => k.id)).Nodup
    rw [List.map_map]
    exact hwf.2
  · intro hc
    have hl := contains_eq_false_iff.mp hc
    constructor
    · rw [insert_snd_absent v hl]
      show (s.entries ++ [((t, ⟨t.id, v⟩) : Ty × AnyBox)]).map
        (fun e => e.1) = types s ++ [t]
      rw [List.map_append]
      rfl
    · rw [as_mut_or_insert_with_absent f hl]
      show (s.entries ++ [((t, ⟨t.id, f ()⟩) : Ty × AnyBox)]).map
        (fun e => e.1) = types s ++ [t]
      rw [List.map_append]
      rfl
  · intro hc
    obtain ⟨b, hb⟩ := contains_eq_true_iff.mp hc
    constructor
    · rw [insert_snd_present v hb]
      exact keys_replaceVal s.entries t ⟨t.id, v⟩
    · simp only [as_mut_or_insert_with, hb]
  · exact keys_writeSlot s t v

theorem c10_types_insertion_order_witness :
    contains (insert new ⟨0, "u8"⟩ 5).2 ⟨1, "u16"⟩ = false ∧
    types (insert (insert new ⟨0, "u8"⟩ 5).2 ⟨1, "u16"⟩ 9).2 =
      types (insert new ⟨0, "u8"⟩ 5).2 ++ [⟨1, "u16"⟩] :=
  ⟨by decide,
    ((c10_types_insertion_order (insert new ⟨0, "u8"⟩ 5).2 ⟨1, "u16"⟩ 9
      (fun _ => 9) (by decide)).2.2.2.2.1 (by decide)).1⟩

end SingletonSet

/-- C7: equality and hashing of `Type` values are defined solely on the
underlying type identity: two `Type` values are equal iff their ids are
equal, independent of their labels, and equal ids give equal hash results
for every hasher function and initial state. -/
theorem c7_type_eq_hash_by_id_only (a b : Ty) (h : Nat → Nat → Nat)
    (st : Nat) :
    (Ty.beq a b = true ↔ a.id = b.id) ∧
    (a.id = b.id → Ty.hashWith h st a = Ty.hashWith h st b) ∧
    (∀ la lb : String, Ty.beq ⟨a.id, la⟩ ⟨a.id, lb⟩ = true) := by
  refine ⟨by simp [Ty.beq], ?_, ?_⟩
  · intro hid
    unfold Ty.hashWith
    rw [hid]
  · intro la lb
    simp [Ty.beq]

theorem c7_type_eq_hash_by_id_only_witness :
    ((⟨0, "u8"⟩ : Ty).id = (⟨0, "core::primitive::u8"⟩ : Ty).id) ∧
    Ty.hashWith (fun a b => a * 31 + b) 7 ⟨0, "u8"⟩ =
      Ty.hashWith (fun a b => a * 31 + b) 7 ⟨0, "core::primitive::u8"⟩ :=
  ⟨rfl,
    (c7_type_eq_hash_by_id_only ⟨0, "u8"⟩ ⟨0, "core::primitive::u8"⟩
      (fun a b => a * 31 + b) 7).2.1 rfl⟩

namespace Ty

theorem findIdxC_none {s : List Char} {c : Char} (h : findIdxC s c = none) :
    ∀ k : Nat, s[k]? ≠ some c := by
  induction s with
  | nil => intro k; simp
  | cons a rest ih =>
    rw [findIdxC] at h
    by_cases ha : (a == c) = true
    · rw [if_pos ha] at h
      exact absurd h (by simp)
    · rw [if_neg ha] at h
      have hr : findIdxC rest c = none := by
        cases hf : findIdxC rest c
        · rfl
        · rw [hf] at h
          simp at h
      intro k
      cases k with
      | zero =>
        simp only [List.getElem?_cons_zero, ne_eq, Option.some.injEq]
        intro he
        exact ha (by rw [he]; simp)
      | succ k =>
        simpa using ih hr k

theorem findIdxC_some {s : List Char} {c : Char} {j : Nat}
    (h : findIdxC s c = some j) :
    s[j]? = some c ∧ ∀ k : Nat, k < j → s[k]? ≠ some c := by
  induction s generalizing j with
  | nil => exact absurd h (by simp [findIdxC])
  | cons a rest ih =>
    rw [findIdxC] at h
    by_cases ha : (a == c) = true
    · rw [if_pos ha] at h
      have hj : j = 0 := by
        have := h
        simp at this
        omega
      subst hj
      refine ⟨?_, ?_⟩
      · simp only [List.getElem?_cons_zero, Option.some.injEq]
        exact eq_of_beq ha
      · intro k hk
        omega
    · rw [if_neg ha] at h
      cases hf : findIdxC rest c with
      | none =>
        rw [hf] at h
        simp at h
      | some j' =>
        rw [hf] at h
        simp at h
        obtain ⟨h1, h2⟩ := ih hf
        subst h
        refine ⟨by simpa using h1, ?_⟩
        intro k hk
        cases k with
        | zero =>
          simp only [List.getElem?_cons_zero, ne_eq, Option.some.injEq]
          intro he
          exact ha (by rw [he]; simp)
        | succ k =>
          simpa using h2 k (by omega)

theorem rfindIdxC_none {s : List Char} {c : Char} (h : rfindIdxC s c = none) :
    ∀ k : Nat, s[k]? ≠ some c := by
  induction s with
  | nil => intro k; simp
  | cons a rest ih =>
    rw [rfindIdxC] at h
    cases hf : rfindIdxC rest c with
    | some i =>
      rw [hf] at h
      simp at h
    | none =>
      rw [hf] at h
      by_cases ha : (a == c) = true
      · rw [if_pos ha] at h
        simp at h
      · intro k
        cases k with
        | zero =>
          simp only [List.getElem?_cons_zero, ne_eq, Option.some.injEq]
          intro he
          exact ha (by rw [he]; simp)
        | succ k =>
          simpa using ih hf k

theorem rfindIdxC_some {s : List Char} {c : Char} {m : Nat}
    (h : rfindIdxC s c = some m) :
    s[m]? = some c ∧ ∀ k : Nat, m < k → s[k]? ≠ some c := by
  induction s generalizing m with
  | nil => exact absurd h (by simp [rfindIdxC])
  | cons a rest ih =>
    rw [rfindIdxC] at h
    cases hf : rfindIdxC rest c with
    | some i =>
      rw [hf] at h
      simp at h
      obtain ⟨h1, h2⟩ := ih hf
      subst h
      refine ⟨by simpa using h1, ?_⟩
      intro k hk
      cases k with
      | zero => omega
      | succ k =>
        simpa using h2 k (by omega)
    | none =>
      rw [hf] at h
      by_cases ha : (a == c) = true
      · rw [if_pos ha] at h
        have hm : m = 0 := by
          have := h
          simp at this
          omega
        subst hm
        refine ⟨?_, ?_⟩
        · simp only [List.getElem?_cons_zero, Option.some.injEq]
          exact eq_of_beq ha
        · intro k hk
          cases k with
          | zero => omega
          | succ k =>
            simpa using rfindIdxC_none hf k
      · rw [if_neg ha] at h
        simp at h

theorem findIdxC_firstOcc (s : List Char) (c : Char) :
    isFirstOccOrEnd s c ((findIdxC s c).getD s.length) := by
  cases hf : findIdxC s c with
  | none => exact Or.inl ⟨rfl, findIdxC_none hf⟩
  | some j =>
    obtain ⟨h1, h2⟩ := findIdxC_some hf
    exact Or.inr ⟨h1, h2⟩

theorem rfindIdxC_afterLast (p : List Char) :
    isAfterLastColon p (((rfindIdxC p ':').map (fun i => i + 1)).getD 0) := by
  cases hr : rfindIdxC p ':' with
  | none => exact Or.inl ⟨rfl, rfindIdxC_none hr⟩
  | some m =>
    obtain ⟨h1, h2⟩ := rfindIdxC_some hr
    exact Or.inr ⟨m, rfl, h1, h2⟩

end Ty

/-- C8: for every `Type`, `as_name()` returns exactly the substring of the
label that ends just before the first `<` (or at the end of the label when
it has no `<`) and starts just after the last `:` occurring before that
cut point (or at the start when no `:` occurs before it), and `to_name()`
returns the same string. -/
theorem c8_short_name_parsing_rule (t : Ty) :
    ∃ j i : Nat,
      isFirstOccOrEnd t.label.data '<' j ∧
      isAfterLastColon (t.label.data.take j) i ∧
      Ty.as_name t = (t.label.data.take j).drop i ∧
      Ty.to_name t = Ty.as_name t := by
  refine ⟨(Ty.findIdxC t.label.data '<').getD t.label.data.length,
    ((Ty.rfindIdxC (t.label.data.take
      ((Ty.findIdxC t.label.data '<').getD t.label.data.length)) ':').map
        (fun i => i + 1)).getD 0,
    Ty.findIdxC_firstOcc _ _, Ty.rfindIdxC_afterLast _, rfl, rfl⟩
